/- Verification development for the stampede concurrent task runner (main.go).

   The definitions below are a shallow embedding of main.go:
   - string helpers model the Go standard-library calls used by parseTasks
     (strings.TrimSpace, strings.Fields, strings.Index, filepath.Base,
     filepath.Ext, strings.TrimSuffix), working at the rune (Char) level;
   - parseTasks / getColor embed main.go lines 63-130; the out-of-range
     index `fields[0]` on an empty token list (a Go runtime panic) is
     modelled by returning Option.none;
   - runTask embeds main.go lines 219-283 as a function of an environment
     record carrying the outcomes of the external primitives it calls
     (the abort-flag load, shlex.Split, pipe setup, Start, Wait); each
     return path of the Go function is one branch, and the `emitted`
     field records the sequence of sends on the results channel;
   - the semaphore channel of main.go lines 222-223/308-311 is modelled
     as a labelled transition system on per-task slot states;
   - mainRun embeds the aggregation loop and exit-status logic of main
     (lines 293-353) together with parseArgs' zero-task early exit. -/
import Mathlib

namespace Stampede

/-- Unicode White_Space test: embedding of Go's unicode.IsSpace, used by
strings.TrimSpace and strings.Fields. -/
def goIsSpace (c : Char) : Bool :=
  let n := c.toNat
  n == 9 || n == 10 || n == 11 || n == 12 || n == 13 || n == 32 ||
  n == 0x85 || n == 0xA0 || n == 0x1680 ||
  (decide (0x2000 ≤ n) && decide (n ≤ 0x200A)) ||
  n == 0x2028 || n == 0x2029 || n == 0x202F || n == 0x205F || n == 0x3000

/-- Embedding of strings.TrimSpace: drop leading and trailing whitespace. -/
def trimSpace (s : String) : String :=
  ⟨((s.data.dropWhile goIsSpace).reverse.dropWhile goIsSpace).reverse⟩

/-- Worker for `fields`: splits a rune list around runs of whitespace,
accumulating the current word (reversed) in `acc`. -/
def fieldsAux : List Char → List Char → List (List Char)
  | [], acc => if acc.isEmpty then [] else [acc.reverse]
  | c :: cs, acc =>
    if goIsSpace c then
      if acc.isEmpty then fieldsAux cs [] else acc.reverse :: fieldsAux cs []
    else
      fieldsAux cs (c :: acc)

/-- Embedding of strings.Fields: whitespace-delimited tokens, no empties. -/
def fields (s : String) : List String :=
  (fieldsAux s.data []).map (fun w => ⟨w⟩)

/-- Index of the first occurrence of a rune, as strings.Index for a
one-rune needle (rune position; equivalent to the byte position here
because the needle and everything before position 1 are ASCII). -/
def charIndexOf : List Char → Char → Option Nat
  | [], _ => none
  | c :: cs, t => if c = t then some 0 else (charIndexOf cs t).map (· + 1)

/-- Embedding of main.go lines 97-106: extract the explicit `[label]`
portion of a line. Returns (label, command); label = "" when the line has
no usable bracket pair (no leading `[`, no `]`, or `]` at index 0). -/
def splitLabelCmd (line : String) : String × String :=
  match line.data with
  | '[' :: _ =>
    match charIndexOf line.data ']' with
    | some e =>
      if 0 < e then
        (⟨(line.data.take e).drop 1⟩, trimSpace ⟨line.data.drop (e + 1)⟩)
      else ("", line)
    | none => ("", line)
  | _ => ("", line)

/-- Embedding of path/filepath.Base for unix paths. -/
def filepathBase (s : String) : String :=
  if s.data.isEmpty then "."
  else
    let r := s.data.reverse.dropWhile (fun c => c == '/')
    if r.isEmpty then "/"
    else ⟨(r.takeWhile (fun c => !(c == '/'))).reverse⟩

/-- Worker for `filepathExt`: scans the reversed rune list (i.e. from the
end of the path) for a '.' before any '/'; `acc` holds the runes already
passed, in original order. -/
def extAuxR : List Char → List Char → Option (List Char)
  | [], _ => none
  | c :: cs, acc =>
    if c = '/' then none
    else if c = '.' then some ('.' :: acc)
    else extAuxR cs (c :: acc)

/-- Embedding of path/filepath.Ext. -/
def filepathExt (s : String) : String :=
  match extAuxR s.data.reverse [] with
  | some l => ⟨l⟩
  | none => ""

/-- Embedding of strings.TrimSuffix. -/
def trimSuffix (s t : String) : String :=
  if t.data.isSuffixOf s.data then ⟨s.data.take (s.data.length - t.data.length)⟩
  else s

/-- The eleven ANSI color prefixes of main.go lines 22-34. -/
def Colors : List String :=
  ["\x1b[1;31m", "\x1b[1;32m", "\x1b[1;33m", "\x1b[1;34m", "\x1b[1;35m",
   "\x1b[1;36m", "\x1b[0;91m", "\x1b[0;92m", "\x1b[0;94m", "\x1b[0;95m",
   "\x1b[0;96m"]

/-- UTF-8 encoding of one rune (the bytes Go's h.Write([]byte(label))
feeds to the hash). -/
def utf8Char (c : Char) : List Nat :=
  let n := c.toNat
  if n < 0x80 then [n]
  else if n < 0x800 then [0xC0 + n / 0x40, 0x80 + n % 0x40]
  else if n < 0x10000 then
    [0xE0 + n / 0x1000, 0x80 + (n / 0x40) % 0x40, 0x80 + n % 0x40]
  else
    [0xF0 + n / 0x40000, 0x80 + (n / 0x1000) % 0x40,
     0x80 + (n / 0x40) % 0x40, 0x80 + n % 0x40]

/-- UTF-8 bytes of a string. -/
def utf8Bytes (s : String) : List Nat :=
  (s.data.map utf8Char).flatten

/-- FNV-1a 32-bit hash over a byte list (hash/fnv New32a + Write + Sum32). -/
def fnv32a (bytes : List Nat) : Nat :=
  bytes.foldl (fun h b => ((h ^^^ b) * 16777619) % 4294967296) 2166136261

/-- Embedding of getColor (main.go lines 63-67). -/
def getColor (label : String) : Nat :=
  fnv32a (utf8Bytes label) % Colors.length

/-- One task: label, color index, command text (main.go lines 41-45). -/
structure Task where
  Label : String
  Color : Nat
  Command : String
deriving DecidableEq

/-- Per-line base-label/command computation of parseTasks (main.go lines
97-113). Returns none when the Go code panics: with no explicit label and
a command that has zero whitespace-delimited tokens, `fields[0]` indexes
an empty slice. -/
def lineTask (line : String) : Option (String × String) :=
  let lc := splitLabelCmd line
  if lc.1 = "" then
    match fields lc.2 with
    | [] => none
    | w :: _ =>
      let base := filepathBase w
      some (trimSuffix base (filepathExt base), lc.2)
  else some lc

/-- Fuel-driven worker for `natDigits` (structural recursion on the
fuel, which always suffices because n / 10 < n). -/
def natDigitsF : Nat → Nat → List Char
  | 0, _ => []
  | fuel + 1, n =>
    if n < 10 then [Nat.digitChar n]
    else natDigitsF fuel (n / 10) ++ [Nat.digitChar (n % 10)]

/-- Decimal digits of a natural number, most significant first
(fmt's %d rendering, always nonnegative here). -/
def natDigits (n : Nat) : List Char :=
  natDigitsF (n + 1) n

/-- Decimal string of a natural number (fmt.Sprintf %d). -/
def natStr (n : Nat) : String :=
  ⟨natDigits n⟩

/-- The label the nth task of a given base label receives (main.go lines
115-119): `c` is the number of earlier tasks with the same base label;
the first keeps the bare label, later ones get " (c+1)" appended. -/
def mkLabel (b : String) (c : Nat) : String :=
  if 0 < c then b ++ " (" ++ natStr (c + 1) ++ ")" else b

/-- Loop body of parseTasks (main.go lines 91-127), with the labelCount
map carried as a function (Go map zero value = 0). -/
def parseTasksAux (cnt : String → Nat) : List String → Option (List Task)
  | [] => some []
  | l :: ls =>
    let line := trimSpace l
    if line = "" then parseTasksAux cnt ls
    else
      match lineTask line with
      | none => none
      | some bc =>
        let label := mkLabel bc.1 (cnt bc.1)
        let cnt2 := fun b => if b = bc.1 then cnt bc.1 + 1 else cnt b
        Option.map (fun ts => ⟨label, getColor label, bc.2⟩ :: ts)
          (parseTasksAux cnt2 ls)

/-- Embedding of parseTasks (main.go lines 87-130); none models the
runtime panic on `fields[0]`. -/
def parseTasks (lines : List String) : Option (List Task) :=
  parseTasksAux (fun _ => 0) lines

/-- The base label of every line that yields a task, in task order
(same skipping and panic behaviour as parseTasks). -/
def lineBases : List String → Option (List String)
  | [] => some []
  | l :: ls =>
    let line := trimSpace l
    if line = "" then lineBases ls
    else
      match lineTask line with
      | none => none
      | some bc => Option.map (fun bs => bc.1 :: bs) (lineBases ls)

/-- Error detail carried in a TaskResult's Err field (nil modelled as
none); the inhabited cases mirror the errors main.go can store there. -/
inductive ErrDetail where
  | aborted
  | shlexError
  | emptyCommand
  | stdoutPipeError
  | stderrPipeError
  | startError
  | waitExitError (code : Int)
  | waitOtherError
deriving DecidableEq

/-- One result per task (main.go lines 47-51). -/
structure TaskResult where
  Task : Task
  ExitCode : Int
  Err : Option ErrDetail
deriving DecidableEq

/-- Outcome of cmd.Wait(): nil error, an exec.ExitError carrying the
process exit code, or some other error. -/
inductive WaitOutcome where
  | ok
  | exitError (code : Int)
  | otherError
deriving DecidableEq

/-- Exit code main.go lines 269-276 computes from the Wait outcome. -/
def waitExitCode : WaitOutcome → Int
  | .ok => 0
  | .exitError c => c
  | .otherError => -1

/-- The Err field main.go line 282 stores: exactly the error returned by
cmd.Wait (none only when Wait returned nil). -/
def waitErr : WaitOutcome → Option ErrDetail
  | .ok => none
  | .exitError c => some (.waitExitError c)
  | .otherError => some .waitOtherError

/-- Outcomes of the external primitives one runTask invocation calls, in
program order: the atomic abort-flag load (line 225), shlex.Split (line
230; none = tokenization error), the two pipe setups (lines 242, 247),
cmd.Start (line 257) and cmd.Wait (line 268). -/
structure RunEnv where
  abortSeen : Bool
  shlex : Option (List String)
  stdoutPipeOk : Bool
  stderrPipeOk : Bool
  startOk : Bool
  wait : WaitOutcome
deriving DecidableEq

/-- Observable effects of one runTask invocation: the sequence of sends
on the results channel, whether cmd.Start was reached and succeeded,
whether the deferred slot release ran, and whether this invocation stored
1 into the shared abort flag. -/
structure RunnerOutcome where
  emitted : List TaskResult
  spawned : Bool
  slotReleased : Bool
  setsAbort : Bool
deriving DecidableEq

/-- Embedding of runTask (main.go lines 219-283), one branch per return
path of the Go function. The deferred `<-sem` (line 223) runs on every
path, so slotReleased is true on every branch. -/
def runTask (abortOnFail : Bool) (env : RunEnv) (task : Task) : RunnerOutcome :=
  if env.abortSeen then
    ⟨[⟨task, -1, some .aborted⟩], false, true, false⟩
  else
    match env.shlex with
    | none => ⟨[⟨task, -1, some .shlexError⟩], false, true, false⟩
    | some words =>
      if words.isEmpty then
        ⟨[⟨task, -1, some .emptyCommand⟩], false, true, false⟩
      else if !env.stdoutPipeOk then
        ⟨[⟨task, -1, some .stdoutPipeError⟩], false, true, false⟩
      else if !env.stderrPipeOk then
        ⟨[⟨task, -1, some .stderrPipeError⟩], false, true, false⟩
      else if !env.startOk then
        ⟨[⟨task, -1, some .startError⟩], false, true, false⟩
      else
        ⟨[⟨task, waitExitCode env.wait, waitErr env.wait⟩], true, true,
         abortOnFail && decide (waitExitCode env.wait ≠ 0)⟩

/-- All results sent on the results channel for one run: one runTask
invocation per task, the i-th task run against environment `envs i`
(main.go lines 317-320). -/
def runAll (abortOnFail : Bool) (envs : Nat → RunEnv) (tasks : List Task) :
    List TaskResult :=
  (tasks.enum.map (fun p => (runTask abortOnFail (envs p.1) p.2).emitted)).flatten

/-- Capacity of a Go buffered channel: make(chan struct, n) panics
(modelled as none) for negative n. -/
def makeChan (n : Int) : Option Nat :=
  if n < 0 then none else some n.toNat

/-- Embedding of main.go lines 308-311: the slot-pool capacity.
`make(chan struct, args.Max)` is evaluated first, so a negative max
panics before the `max <= 0` fallback to the task count is reached. -/
def semCapacity (max : Int) (numTasks : Nat) : Option Nat :=
  match makeChan max with
  | none => none
  | some c => if max ≤ 0 then makeChan (numTasks : Int) else some c

/-- Slot-pool state of one task: before `sem <- struct` (line 222),
holding a slot, or past the deferred `<-sem` (line 223). -/
inductive SlotState where
  | pending
  | holding
  | done
deriving DecidableEq

/-- Number of tasks currently holding a concurrency slot. -/
def countHolding (s : List SlotState) : Nat :=
  s.count .holding

/-- Transition system of the semaphore channel: a send (`sem <- struct`)
succeeds only while fewer than `cap` sends are outstanding; a receive
(the deferred `<-sem`) retires one outstanding send. -/
inductive SemStep (cap : Nat) : List SlotState → List SlotState → Prop
  | acquire (s : List SlotState) (i : Nat) (hi : i < s.length)
      (hp : s.get ⟨i, hi⟩ = .pending) (hcap : countHolding s < cap) :
      SemStep cap s (s.set i .holding)
  | release (s : List SlotState) (i : Nat) (hi : i < s.length)
      (hh : s.get ⟨i, hi⟩ = .holding) :
      SemStep cap s (s.set i .done)

/-- States reachable during a run of n tasks over a pool of capacity cap,
starting with every task before its slot acquisition. -/
def SemReachable (cap n : Nat) (s : List SlotState) : Prop :=
  Relation.ReflTransGen (SemStep cap) (List.replicate n SlotState.pending) s

/-- Observable outcome of main: the results drained from the channel and
the process exit status. -/
structure MainOutcome where
  results : List TaskResult
  exit : Nat
deriving DecidableEq

/-- Embedding of the run lifecycle: parseTasks (none = panic), the
zero-task early exit of parseArgs (main.go lines 212-216, before any
scheduling), and otherwise the aggregation loop and exit status of main
(lines 327-353): count results with nonzero exit code, exit 1 when any
exist, 0 otherwise. -/
def mainRun (lines : List String) (abortOnFail : Bool) (envs : Nat → RunEnv) :
    Option MainOutcome :=
  match parseTasks lines with
  | none => none
  | some ts =>
    if ts.isEmpty then some ⟨[], 1⟩
    else
      let rs := runAll abortOnFail envs ts
      some ⟨rs, if 0 < rs.countP (fun r => r.ExitCode != 0) then 1 else 0⟩

/- Concrete sample data used to instantiate the theorems below. -/

/-- Environment of a run where every primitive succeeds and the process
exits 0. -/
def envOk : RunEnv := ⟨false, some ["x"], true, true, true, .ok⟩

/-- Environment of a run whose process runs and exits with code 3. -/
def envExit3 : RunEnv := ⟨false, some ["x"], true, true, true, .exitError 3⟩

/-- Environment of a run whose process runs and exits with code 5. -/
def envExit5 : RunEnv := ⟨false, some ["x"], true, true, true, .exitError 5⟩

/-- Environment where the runner observes the abort flag already set. -/
def envAbortSeen : RunEnv := ⟨true, some ["x"], true, true, true, .ok⟩

/-- Environment where shlex.Split fails. -/
def envShlexFail : RunEnv := ⟨false, none, true, true, true, .ok⟩

/-- A sample task. -/
def task0 : Task := ⟨"a", 7, "x"⟩

/-- The task list parseTasks produces from the input lines "a", "a". -/
def tsAA : List Task := [⟨"a", 7, "a"⟩, ⟨"a (2)", 4, "a"⟩]

/- ===================== helper lemmas ===================== -/

theorem natDigitsF_congr :
    ∀ f1 f2 n : Nat, n < f1 → n < f2 → natDigitsF f1 n = natDigitsF f2 n := by
  intro f1
  induction f1 with
  | zero => intro f2 n h1; omega
  | succ f ih =>
    intro f2 n h1 h2
    match f2, h2 with
    | g + 1, h2 =>
      show (if n < 10 then _ else _) = (if n < 10 then _ else _)
      by_cases hn : n < 10
      · rw [if_pos hn, if_pos hn]
      · rw [if_neg hn, if_neg hn, ih g (n / 10) (by omega) (by omega)]

/-- Recurrence satisfied by natDigits (the fuel always suffices). -/
theorem natDigits_eq (n : Nat) :
    natDigits n =
      if n < 10 then [Nat.digitChar n]
      else natDigits (n / 10) ++ [Nat.digitChar (n % 10)] := by
  have h1 : natDigits n =
      if n < 10 then [Nat.digitChar n]
      else natDigitsF n (n / 10) ++ [Nat.digitChar (n % 10)] := rfl
  rw [h1]
  by_cases h : n < 10
  · rw [if_pos h, if_pos h]
  · rw [if_neg h, if_neg h,
      natDigitsF_congr n (n / 10 + 1) (n / 10) (by omega) (by omega)]
    rfl

theorem natDigits_ne_nil (n : Nat) : natDigits n ≠ [] := by
  rw [natDigits_eq]
  split <;> simp

theorem digitChar_inj_lt : ∀ a < 10, ∀ b < 10,
    Nat.digitChar a = Nat.digitChar b → a = b := by decide

theorem natDigits_inj : ∀ m n : Nat, natDigits m = natDigits n → m = n := by
  intro m
  induction m using Nat.strong_induction_on with
  | _ m ih =>
    intro n h
    rw [natDigits_eq m, natDigits_eq n] at h
    by_cases hm : m < 10 <;> by_cases hn : n < 10
    · rw [if_pos hm, if_pos hn] at h
      exact digitChar_inj_lt m hm n hn (List.cons.injEq .. ▸ h).1
    · rw [if_pos hm, if_neg hn] at h
      have hlen := congrArg List.length h
      simp at hlen
      exact absurd hlen (natDigits_ne_nil (n / 10))
    · rw [if_neg hm, if_pos hn] at h
      have hlen := congrArg List.length h
      simp at hlen
      exact absurd hlen (natDigits_ne_nil (m / 10))
    · rw [if_neg hm, if_neg hn] at h
      obtain ⟨h1, h2⟩ := List.append_inj' h (by simp)
      have hdiv : m / 10 = n / 10 :=
        ih (m / 10) (Nat.div_lt_self (by omega) (by norm_num)) (n / 10) h1
      have hmod : m % 10 = n % 10 :=
        digitChar_inj_lt (m % 10) (Nat.mod_lt m (by norm_num))
          (n % 10) (Nat.mod_lt n (by norm_num)) (List.cons.injEq .. ▸ h2).1
      omega

theorem mkLabel_ne (b : String) {c d : Nat} (h : c < d) :
    mkLabel b c ≠ mkLabel b d := by
  intro he
  have hd : 0 < d := Nat.lt_of_le_of_lt (Nat.zero_le c) h
  have hdata := congrArg String.data he
  rw [mkLabel, mkLabel, if_pos hd] at hdata
  by_cases hc : 0 < c
  · rw [if_pos hc] at hdata
    simp only [String.data_append, List.append_assoc] at hdata
    have h1 := List.append_cancel_left hdata
    have h2 := List.append_cancel_left h1
    have h3 := (List.append_inj' h2 (by rfl)).1
    have : c + 1 = d + 1 := natDigits_inj _ _ h3
    omega
  · rw [if_neg hc] at hdata
    have hlen := congrArg List.length hdata
    simp [String.data_append] at hlen

theorem count_take_le (l : List String) (a : String) :
    ∀ m n : Nat, m ≤ n → (l.take m).count a ≤ (l.take n).count a := by
  induction l with
  | nil => simp
  | cons c l ih =>
    intro m n hmn
    match m, n with
    | 0, n => simp
    | m + 1, n + 1 =>
      simp only [List.take_succ_cons, List.count_cons]
      have := ih m n (by omega)
      omega

theorem count_take_succ (l : List String) (a : String) :
    ∀ (i : Nat) (hi : i < l.length),
      (l.take (i + 1)).count a =
        (l.take i).count a + (if l.get ⟨i, hi⟩ = a then 1 else 0) := by
  induction l with
  | nil => intro i hi; simp at hi
  | cons c l ih =>
    intro i hi
    match i with
    | 0 => simp [List.count_cons, beq_iff_eq]
    | i + 1 =>
      simp only [List.take_succ_cons, List.count_cons, List.get]
      rw [ih i (by simpa using hi)]
      omega

theorem parseTasksAux_spec :
    ∀ (lines : List String) (cnt : String → Nat) (ts : List Task),
      parseTasksAux cnt lines = some ts →
      ∃ bs : List String, lineBases lines = some bs ∧ ts.length = bs.length ∧
        ∀ (i : Nat) (hi : i < ts.length) (hbi : i < bs.length),
          (ts.get ⟨i, hi⟩).Label =
            mkLabel (bs.get ⟨i, hbi⟩)
              (cnt (bs.get ⟨i, hbi⟩) + (bs.take i).count (bs.get ⟨i, hbi⟩)) ∧
          (ts.get ⟨i, hi⟩).Color = getColor ((ts.get ⟨i, hi⟩).Label) := by
  intro lines
  induction lines with
  | nil =>
    intro cnt ts h
    simp only [parseTasksAux, Option.some.injEq] at h
    subst h
    exact ⟨[], by simp [lineBases], by simp, by intro i hi; simp at hi⟩
  | cons l ls ih =>
    intro cnt ts h
    by_cases hline : trimSpace l = ""
    · simp only [parseTasksAux, hline, if_true, reduceIte] at h
      obtain ⟨bs, hbs, hlen, hspec⟩ := ih cnt ts h
      exact ⟨bs, by simp [lineBases, hline, hbs], hlen, hspec⟩
    · cases hlt : lineTask (trimSpace l) with
      | none => simp [parseTasksAux, hline, hlt] at h
      | some bc =>
        simp only [parseTasksAux, hline, hlt, if_neg, reduceIte,
          Option.map_eq_some'] at h
        obtain ⟨ts2, hts2, hcons⟩ := h
        obtain ⟨bs2, hbs2, hlen2, hspec2⟩ := ih _ ts2 hts2
        subst hcons
        refine ⟨bc.1 :: bs2, by simp [lineBases, hline, hlt, hbs2],
          by simp [hlen2], ?_⟩
        intro i hi hbi
        match i with
        | 0 =>
          constructor
          · simp [List.get, mkLabel]
          · simp [List.get]
        | i + 1 =>
          have hi2 : i < ts2.length := by simpa using hi
          have hbi2 : i < bs2.length := by simpa using hbi
          obtain ⟨hl, hc⟩ := hspec2 i hi2 hbi2
          refine ⟨?_, hc⟩
          show (ts2.get ⟨i, hi2⟩).Label = _
          rw [hl]
          show mkLabel (bs2.get ⟨i, hbi2⟩) _ = mkLabel (bs2.get ⟨i, hbi2⟩) _
          congr 1
          rw [List.take_succ_cons, List.count_cons]
          simp only [List.get_eq_getElem, List.getElem_cons_succ]
          by_cases hba : bs2[i] = bc.1
          · rw [if_pos hba]
            have hbeq : (bc.1 == bs2[i]) = true := by simp [beq_iff_eq, hba]
            rw [if_pos hbeq]
            simp only [hba]
            omega
          · rw [if_neg hba]
            have hba2 : ¬ ((bc.1 == bs2[i]) = true) := by
              simpa [beq_iff_eq] using fun e => hba e.symm
            rw [if_neg hba2]
            omega

theorem runTask_emitted_length (aof : Bool) (env : RunEnv) (task : Task) :
    (runTask aof env task).emitted.length = 1 := by
  unfold runTask
  repeat (first | rfl | split)

theorem countHolding_replicate (n : Nat) :
    countHolding (List.replicate n SlotState.pending) = 0 := by
  induction n with
  | zero => rfl
  | succ n ih => simpa [countHolding, List.replicate, List.count_cons] using ih

theorem countHolding_set (s : List SlotState) :
    ∀ (i : Nat) (hi : i < s.length) (v : SlotState),
      countHolding (s.set i v) +
          (if s.get ⟨i, hi⟩ = SlotState.holding then 1 else 0) =
        countHolding s + (if v = SlotState.holding then 1 else 0) := by
  induction s with
  | nil => intro i hi; simp at hi
  | cons a s ih =>
    intro i hi v
    match i with
    | 0 =>
      cases a <;> cases v <;>
        simp [countHolding, List.set, List.count_cons]
    | i + 1 =>
      have h := ih i (by simpa using hi) v
      cases a <;> cases v <;>
        simp [countHolding, List.set, List.count_cons, List.get] at h ⊢ <;>
        omega

/- ===================== claim theorems ===================== -/

/-- C1: every runTask invocation emits exactly one TaskResult on every
path (abort-before-start, tokenization failure, empty token list, pipe
setup failure, spawn failure, normal completion), so the total number of
results received by the aggregator equals the number of parsed tasks. -/
theorem one_result_per_task :
    (∀ (aof : Bool) (env : RunEnv) (task : Task),
        (runTask aof env task).emitted.length = 1) ∧
    (∀ (lines : List String) (ts : List Task) (aof : Bool)
        (envs : Nat → RunEnv), parseTasks lines = some ts →
        (runAll aof envs ts).length = ts.length) := by
  constructor
  · exact runTask_emitted_length
  · intro lines ts aof envs _
    unfold runAll
    rw [List.length_flatten]
    have hsum : ∀ l : List (Nat × Task),
        ((l.map (fun p => (runTask aof (envs p.1) p.2).emitted)).map
          List.length).sum = l.length := by
      intro l
      induction l with
      | nil => rfl
      | cons p l ih =>
        simp only [List.map_cons, List.sum_cons, runTask_emitted_length,
          List.length_cons, ih]
        omega
    rw [hsum ts.enum, List.enum_length]

/-- Witness for one_result_per_task at a concrete run of two tasks. -/
theorem one_result_per_task_witness :
    (runTask false envOk task0).emitted.length = 1 ∧
    (runAll false (fun _ => envOk) tsAA).length = tsAA.length :=
  ⟨one_result_per_task.1 false envOk task0,
   one_result_per_task.2 ["a", "a"] tsAA false (fun _ => envOk) rfl⟩

/-- C6: a runner that observes the abort flag upon acquiring its slot
emits one TaskResult with sentinel exit code -1 and an aborted error
detail, releases the slot, and never spawns a process. -/
theorem abort_before_start (aof : Bool) (env : RunEnv) (task : Task)
    (h : env.abortSeen = true) :
    (runTask aof env task).emitted = [⟨task, -1, some .aborted⟩] ∧
    (runTask aof env task).spawned = false ∧
    (runTask aof env task).slotReleased = true := by
  simp [runTask, h]

/-- Witness for abort_before_start. -/
theorem abort_before_start_witness :
    (runTask false envAbortSeen task0).emitted =
      [⟨task0, -1, some .aborted⟩] ∧
    (runTask false envAbortSeen task0).spawned = false ∧
    (runTask false envAbortSeen task0).slotReleased = true :=
  abort_before_start false envAbortSeen task0 rfl

/-- C9: the single non-empty input line "[]" (empty explicit label,
empty remaining command) makes parseTasks panic — lineTask indexes the
first element of an empty token list, modelled as none — rather than
return a task list. -/
theorem empty_bracket_line_panics :
    ("[]" : String) ≠ "" ∧ fields (trimSpace "") = [] ∧
    lineTask "[]" = none ∧ parseTasks ["[]"] = none :=
  ⟨by decide, rfl, rfl, rfl⟩

/-- C10: a negative max panics while constructing the slot pool (Go's
make(chan, n) with n < 0), before the max <= 0 fallback to task-count
capacity is reached; the capacity is therefore neither unlimited nor a
cap. -/
theorem negative_max_panics (max : Int) (h : max < 0) (n : Nat) :
    semCapacity max n = none := by
  unfold semCapacity makeChan
  rw [if_pos h]

/-- Witness for negative_max_panics at max = -1, 5 tasks. -/
theorem negative_max_panics_witness : semCapacity (-1) 5 = none :=
  negative_max_panics (-1) (by decide) 5

/-- C2: for a run with at least one parsed task the exit status is 0
precisely when every result carries exit code 0 and 1 precisely when
some result carries a nonzero exit code; an input parsing to zero tasks
exits with status 1 with nothing scheduled. -/
theorem exit_status_correct (lines : List String) (aof : Bool)
    (envs : Nat → RunEnv) (ts : List Task)
    (hp : parseTasks lines = some ts) :
    (ts = [] → mainRun lines aof envs = some ⟨[], 1⟩) ∧
    (ts ≠ [] → ∃ o : MainOutcome, mainRun lines aof envs = some o ∧
      o.results = runAll aof envs ts ∧
      (o.exit = 0 ↔ ∀ r ∈ o.results, r.ExitCode = 0) ∧
      (o.exit = 1 ↔ ∃ r ∈ o.results, r.ExitCode ≠ 0)) := by
  constructor
  · intro he
    subst he
    simp [mainRun, hp]
  · intro hne
    have hempty : ts.isEmpty = false := by
      cases ts with
      | nil => exact absurd rfl hne
      | cons a l => rfl
    have hmain : mainRun lines aof envs =
        some ⟨runAll aof envs ts,
          if 0 < (runAll aof envs ts).countP (fun r => r.ExitCode != 0)
          then 1 else 0⟩ := by
      unfold mainRun
      rw [hp]
      simp [hempty]
    have hiff : 0 < (runAll aof envs ts).countP (fun r => r.ExitCode != 0) ↔
        ∃ r ∈ runAll aof envs ts, r.ExitCode ≠ 0 := by
      rw [List.countP_pos_iff]
      simp [bne_iff_ne]
    by_cases hpos : 0 < (runAll aof envs ts).countP (fun r => r.ExitCode != 0)
    · rw [if_pos hpos] at hmain
      refine ⟨_, hmain, rfl, ?_, ?_⟩
      · constructor
        · intro h
          exact absurd h one_ne_zero
        · intro hall
          obtain ⟨r, hrm, hr0⟩ := hiff.mp hpos
          exact absurd (hall r hrm) hr0
      · exact ⟨fun _ => hiff.mp hpos, fun _ => rfl⟩
    · rw [if_neg hpos] at hmain
      have hall : ∀ r ∈ runAll aof envs ts, r.ExitCode = 0 := by
        intro r hr
        by_contra hr0
        exact hpos (hiff.mpr ⟨r, hr, hr0⟩)
      refine ⟨_, hmain, rfl, ⟨fun _ => hall, fun _ => rfl⟩, ?_⟩
      constructor
      · intro h
        exact absurd h.symm one_ne_zero
      · intro hex
        obtain ⟨r, hrm, hr0⟩ := hex
        exact absurd (hall r hrm) hr0

/-- Witness for exit_status_correct: an all-whitespace argument parses
to zero tasks and the run exits 1 before scheduling. -/
theorem exit_status_correct_witness :
    mainRun [""] false (fun _ => envOk) = some ⟨[], 1⟩ :=
  (exit_status_correct [""] false (fun _ => envOk) [] rfl).1 rfl

/-- C3: in every reachable state of the slot pool, the number of tasks
simultaneously holding a slot is at most the pool capacity, which is the
configured max when max > 0 and the task count when max = 0. -/
theorem semaphore_bound (max : Int) (n cap : Nat)
    (hcap : semCapacity max n = some cap) (s : List SlotState)
    (hs : SemReachable cap n s) :
    countHolding s ≤ cap ∧ (0 < max → cap = max.toNat) ∧
    (max = 0 → cap = n) := by
  refine ⟨?_, ?_, ?_⟩
  · unfold SemReachable at hs
    induction hs with
    | refl => simp [countHolding_replicate]
    | tail hab step ih =>
      cases step with
      | acquire i hi hp hcap2 =>
        have h := countHolding_set _ i hi .holding
        rw [hp] at h
        simp at h
        omega
      | release i hi hh =>
        have h := countHolding_set _ i hi .done
        rw [hh] at h
        simp at h
        omega
  · intro hpos
    unfold semCapacity makeChan at hcap
    rw [if_neg (show ¬ max < 0 by omega)] at hcap
    simp only [] at hcap
    rw [if_neg (show ¬ max ≤ 0 by omega)] at hcap
    exact (Option.some.injEq .. ▸ hcap).symm
  · intro h0
    subst h0
    simp [semCapacity, makeChan] at hcap
    omega

/-- Witness for semaphore_bound at max = 1 with one task, in the initial
state. -/
theorem semaphore_bound_witness :
    countHolding (List.replicate 1 SlotState.pending) ≤ 1 ∧
    (0 < (1 : Int) → 1 = (1 : Int).toNat) ∧ ((1 : Int) = 0 → 1 = 1) :=
  semaphore_bound 1 1 1 rfl (List.replicate 1 SlotState.pending)
    Relation.ReflTransGen.refl

/-- C7: the abort flag is stored only by an invocation with abort-on-fail
enabled whose process was launched and completed with a nonzero exit
code; tokenization failure, an empty token list, pipe-setup failure and
launch failure emit the sentinel exit code without touching the flag. -/
theorem abort_flag_only_on_process_failure (aof : Bool) (env : RunEnv)
    (task : Task) :
    ((runTask aof env task).setsAbort = true ↔
      (aof = true ∧ (runTask aof env task).spawned = true ∧
        waitExitCode env.wait ≠ 0)) ∧
    (env.abortSeen = false →
      (env.shlex = none ∨ env.shlex = some [] ∨ env.stdoutPipeOk = false ∨
        env.stderrPipeOk = false ∨ env.startOk = false) →
      (runTask aof env task).setsAbort = false ∧
      ∀ r ∈ (runTask aof env task).emitted, r.ExitCode = -1) := by
  rcases env with ⟨ab, sh, o1, o2, st, w⟩
  constructor
  · cases ab
    · rcases sh with _ | ws
      · simp [runTask]
      · rcases ws with _ | ⟨w1, ws2⟩
        · simp [runTask]
        · cases o1 <;> cases o2 <;> cases st <;>
            simp [runTask, Bool.and_eq_true, decide_eq_true_eq]
    · simp [runTask]
  · intro hab hpath
    simp only [] at hab
    subst hab
    rcases sh with _ | ws
    · simp [runTask]
    · rcases ws with _ | ⟨w1, ws2⟩
      · simp [runTask]
      · rcases hpath with h | h | h | h | h
        · exact absurd h (by simp)
        · simp at h
        · simp only [] at h
          subst h
          simp [runTask]
        · simp only [] at h
          subst h
          cases o1 <;> simp [runTask]
        · simp only [] at h
          subst h
          cases o1 <;> cases o2 <;> simp [runTask]

/-- Witness for abort_flag_only_on_process_failure: with abort-on-fail
enabled a clean exit 3 sets the flag; a tokenization failure does not. -/
theorem abort_flag_witness :
    (runTask true envExit3 task0).setsAbort = true ∧
    (runTask false envShlexFail task0).setsAbort = false :=
  ⟨(abort_flag_only_on_process_failure true envExit3 task0).1.mpr
      ⟨rfl, rfl, by decide⟩,
   ((abort_flag_only_on_process_failure false envShlexFail task0).2 rfl
      (Or.inl rfl)).1⟩

/-- C5 counterexample: a process that ran and exited with code 3 yields a
TaskResult that does carry an error detail (the exit-status error from
Wait), contradicting the claim that a clean nonzero exit carries none. -/
theorem clean_exit_carries_error_detail :
    (runTask false envExit3 task0).spawned = true ∧
    (runTask false envExit3 task0).emitted =
      [⟨task0, 3, some (.waitExitError 3)⟩] ∧
    some (ErrDetail.waitExitError 3) ≠ (none : Option ErrDetail) :=
  ⟨rfl, rfl, by decide⟩

/-- C5 amended: a task whose process ran and exited nonzero yields a
result carrying that exact exit code together with an error detail (the
exit-status error from Wait); a result carries no error detail when the
process ran and exited 0. -/
theorem error_detail_spec (aof : Bool) (env : RunEnv) (task : Task)
    (words : List String) (hA : env.abortSeen = false)
    (hS : env.shlex = some words) (hw : words ≠ [])
    (h1 : env.stdoutPipeOk = true) (h2 : env.stderrPipeOk = true)
    (h3 : env.startOk = true) :
    (∀ c : Int, env.wait = .exitError c →
      (runTask aof env task).emitted =
        [⟨task, c, some (.waitExitError c)⟩]) ∧
    (env.wait = .ok →
      (runTask aof env task).emitted = [⟨task, 0, none⟩]) := by
  have hwe : words.isEmpty = false := by
    cases words with
    | nil => exact absurd rfl hw
    | cons a l => rfl
  constructor
  · intro c hc
    simp [runTask, hA, hS, hwe, h1, h2, h3, hc, waitExitCode, waitErr]
  · intro hc
    simp [runTask, hA, hS, hwe, h1, h2, h3, hc, waitExitCode, waitErr]

/-- Witness for error_detail_spec: exit code 5 is carried along with the
exit-status error detail. -/
theorem error_detail_spec_witness :
    (runTask false envExit5 task0).emitted =
      [⟨task0, 5, some (.waitExitError 5)⟩] :=
  (error_detail_spec false envExit5 task0 ["x"] rfl rfl (by decide)
    rfl rfl rfl).1 5 rfl

/-- C8: the first occurrence of a base label keeps the bare label and
the nth occurrence (n >= 2) of the same base label receives
"<base> (n)"; every task's color key is the FNV-32a hash of its final
disambiguated label reduced modulo the number of display colors. -/
theorem label_and_color_assignment (lines : List String) (ts : List Task)
    (bs : List String) (hp : parseTasks lines = some ts)
    (hb : lineBases lines = some bs) (i : Nat) (hi : i < ts.length)
    (hbi : i < bs.length) :
    (ts.get ⟨i, hi⟩).Label =
      (if (bs.take i).count (bs.get ⟨i, hbi⟩) = 0 then bs.get ⟨i, hbi⟩
       else bs.get ⟨i, hbi⟩ ++ " (" ++
         natStr ((bs.take i).count (bs.get ⟨i, hbi⟩) + 1) ++ ")") ∧
    (ts.get ⟨i, hi⟩).Color =
      fnv32a (utf8Bytes ((ts.get ⟨i, hi⟩).Label)) % Colors.length := by
  obtain ⟨bs2, hbs2, hlen, hspec⟩ :=
    parseTasksAux_spec lines (fun _ => 0) ts hp
  rw [hb] at hbs2
  injection hbs2 with hbs2
  subst hbs2
  obtain ⟨hl, hc⟩ := hspec i hi hbi
  constructor
  · rw [hl]
    simp only [Nat.zero_add, mkLabel]
    by_cases h0 : (bs.take i).count (bs.get ⟨i, hbi⟩) = 0
    · rw [if_neg (by omega), if_pos h0]
    · rw [if_pos (by omega), if_neg h0]
  · rw [hc]
    rfl

/-- Witness for label_and_color_assignment on input lines "a", "a": the
second occurrence of base label "a" gets "a (2)" and its color is the
FNV-32a hash of "a (2)" mod 11. -/
theorem label_and_color_witness :
    (tsAA.get ⟨1, by decide⟩).Label =
      (if ((["a", "a"] : List String).take 1).count
          ((["a", "a"] : List String).get ⟨1, by decide⟩) = 0 then
        (["a", "a"] : List String).get ⟨1, by decide⟩
       else (["a", "a"] : List String).get ⟨1, by decide⟩ ++ " (" ++
         natStr (((["a", "a"] : List String).take 1).count
           ((["a", "a"] : List String).get ⟨1, by decide⟩) + 1) ++ ")") ∧
    (tsAA.get ⟨1, by decide⟩).Color =
      fnv32a (utf8Bytes ((tsAA.get ⟨1, by decide⟩).Label)) %
        Colors.length :=
  label_and_color_assignment ["a", "a"] tsAA ["a", "a"] rfl rfl 1
    (by decide) (by decide)

/-- C4 counterexample: on the input lines "[x (2)] a", "[x] b", "[x] c"
the explicit label "x (2)" collides with the generated label of the
second task whose base label is "x", so the disambiguated labels are not
pairwise distinct. -/
theorem labels_not_pairwise_distinct :
    (parseTasks ["[x (2)] a", "[x] b", "[x] c"]).map
        (fun ts => ts.map Task.Label) =
      some ["x (2)", "x", "x (2)"] ∧
    ¬ List.Pairwise (fun a b : String => a ≠ b)
        ["x (2)", "x", "x (2)"] :=
  ⟨rfl, by decide⟩

/-- C4 amended: any two tasks arising from the same base label receive
pairwise distinct disambiguated labels (an explicitly given label can
still coincide textually with another task's generated suffixed label,
so the full label list need not be pairwise distinct). -/
theorem same_base_labels_distinct (lines : List String) (ts : List Task)
    (bs : List String) (hp : parseTasks lines = some ts)
    (hb : lineBases lines = some bs) (i j : Nat) (hij : i < j)
    (hi : i < ts.length) (hj : j < ts.length) (hbi : i < bs.length)
    (hbj : j < bs.length)
    (hbase : bs.get ⟨i, hbi⟩ = bs.get ⟨j, hbj⟩) :
    (ts.get ⟨i, hi⟩).Label ≠ (ts.get ⟨j, hj⟩).Label := by
  obtain ⟨bs2, hbs2, hlen, hspec⟩ :=
    parseTasksAux_spec lines (fun _ => 0) ts hp
  rw [hb] at hbs2
  injection hbs2 with hbs2
  subst hbs2
  obtain ⟨hli, _⟩ := hspec i hi hbi
  obtain ⟨hlj, _⟩ := hspec j hj hbj
  rw [hli, hlj, hbase]
  simp only [Nat.zero_add]
  have hstep : (bs.take (i + 1)).count (bs.get ⟨j, hbj⟩) =
      (bs.take i).count (bs.get ⟨j, hbj⟩) + 1 := by
    rw [count_take_succ bs (bs.get ⟨j, hbj⟩) i hbi, if_pos hbase]
  have hmono := count_take_le bs (bs.get ⟨j, hbj⟩) (i + 1) j hij
  exact mkLabel_ne (bs.get ⟨j, hbj⟩) (by omega)

/-- Witness for same_base_labels_distinct on input lines "a", "a". -/
theorem same_base_labels_distinct_witness :
    (tsAA.get ⟨0, by decide⟩).Label ≠ (tsAA.get ⟨1, by decide⟩).Label :=
  same_base_labels_distinct ["a", "a"] tsAA ["a", "a"] rfl rfl 0 1
    (by decide) (by decide) (by decide) (by decide) (by decide) rfl

end Stampede
